import Mathlib

/-!
Verification of the Obsidian-To-Org repository's core text transforms.

The repository consists of three small Python scripts
(`obsidian-to-org.py`, `Obsidian-To-Org/obsidian-to-org.py`,
`Obsidian-To-Roam/obsidian-to-roam.py`) whose core is a handful of pure,
regex-driven text transforms:

  * `extract_and_convert_tags` — removes every block matching
    `tags:\s*(-\s+\w+\s*)+` from the text and renders the tag tokens
    (collected with `(-\s+(\S+))` over the matched block) as an
    annotation string; the callback overwrites the `tags` variable on
    every match, so the last matched block wins.
  * `remove_md_header` — `re.sub(r"^---\n.*?\n---\n", "", ..., re.DOTALL)`.
  * `convert_links_and_images` / `convert_links` — rewrite wiki links
    matching `\[\[(.*?)(?:#(.*?))?(?:\|(.*?))?\]\]` and images matching
    `!\[(.*?)\]\((.*?)\)`.
  * `build_existing_ids_map` — per scanned file, `re.search(r":ID:\s+(\S+)")`,
    recording title ↦ id with plain dict assignment.
  * `generate_org_roam_header` (two conventions) — header synthesis.

Python strings are modelled as `List Char`.  The concrete regular
expressions above are embedded as deterministic scanners.  This is
faithful because in each of these patterns the adjacent character classes
are pairwise disjoint (`\s` vs `\w` vs `-`, `\s` vs `\S`), so greedy
matching never needs to backtrack, and the lazy sub-expressions (`.*?`)
simply stop at the first position where the continuation can match; the
only inner failures (`#`/`|`/`](` found but no closing delimiter before a
newline or the end of the text) also make every longer extent of the
enclosing lazy group fail, so propagating such a failure as a failure of
the whole match attempt at the current position is exact.  Character
classes use their ASCII meaning (`\w` = alphanumeric or `_`,
`\s` = space, tab, newline, carriage return, vertical tab, form feed);
the scripts' inputs are note files and the claims do not hinge on the
non-ASCII extensions of the Python classes.  `uuid.uuid4()` is
nondeterministic, so a generated identifier is passed as an explicit
parameter wherever the code calls it.
-/

/-- Python `\s` on ASCII characters. -/
def pyIsSpace (c : Char) : Bool :=
  c = ' ' || c = '\t' || c = '\n' || c = '\r' || c = '\x0b' || c = '\x0c'

/-- Python `\w` on ASCII characters. -/
def pyIsWord (c : Char) : Bool :=
  c.isAlphanum || c = '_'

/-- Longest prefix satisfying `p` together with the rest (`takeWhile`/`dropWhile`). -/
def spanL (p : Char → Bool) : List Char → List Char × List Char
  | [] => ([], [])
  | c :: cs =>
    if p c then
      let (a, b) := spanL p cs
      (c :: a, b)
    else ([], c :: cs)

/-- Boolean prefix test used by the scanners. -/
def startsWithL : List Char → List Char → Bool
  | [], _ => true
  | _ :: _, [] => false
  | p :: ps, c :: cs => p = c && startsWithL ps cs

/-- Whether a string occurs as a contiguous substring. -/
def hasSubstr (p : List Char) : List Char → Bool
  | [] => startsWithL p []
  | c :: cs => startsWithL p (c :: cs) || hasSubstr p cs

/-- Python dict assignment `d[k] = v`: overwrite in place, else append. -/
def dictInsert : List (List Char × List Char) → List Char → List Char → List (List Char × List Char)
  | [], k, v => [(k, v)]
  | (k', v') :: m, k, v => if k' = k then (k', v) :: m else (k', v') :: dictInsert m k v

/-- Python dict lookup `d[k]` (with `k in d` as `isSome`). -/
def dictLookup : List (List Char × List Char) → List Char → Option (List Char)
  | [], _ => none
  | (k', v') :: m, k => if k' = k then some v' else dictLookup m k

/- ### Tag extraction (`extract_and_convert_tags`)

The block pattern is `tags:\s*(-\s+\w+\s*)+`, the per-tag pattern is
`-\s+(\S+)`; `re.sub` scans left to right, removing every match, and the
callback re-assigns `tags` on every match. -/

/-- One iteration of the group `(-\s+\w+\s*)`: returns the consumed
characters and the rest. -/
def matchItem : List Char → Option (List Char × List Char)
  | [] => none
  | c :: cs1 =>
    if c = '-' then
      let (sp, cs2) := spanL pyIsSpace cs1
      if sp.isEmpty then none
      else
        let (w, cs3) := spanL pyIsWord cs2
        if w.isEmpty then none
        else
          let (sp2, cs4) := spanL pyIsSpace cs3
          some ('-' :: (sp ++ w ++ sp2), cs4)
    else none

/-- Greedy `(-\s+\w+\s*)+` (fuelled; each item consumes at least two
characters, so fuel `length + 1` is always enough). -/
def matchItemsN : Nat → List Char → Option (List Char × List Char)
  | 0, _ => none
  | n + 1, cs =>
    match matchItem cs with
    | none => none
    | some (it, rest) =>
      match matchItemsN n rest with
      | none => some (it, rest)
      | some (its, rest2) => some (it ++ its, rest2)

/-- Attempt the block pattern `tags:\s*(-\s+\w+\s*)+` anchored at the
start of `cs`; on success returns the matched block and the rest. -/
def matchTagsBlockAt (cs : List Char) : Option (List Char × List Char) :=
  if startsWithL "tags:".data cs then
    let (sp, cs2) := spanL pyIsSpace (cs.drop 5)
    match matchItemsN (cs2.length + 1) cs2 with
    | none => none
    | some (its, rest) => some ("tags:".data ++ sp ++ its, rest)
  else none

/-- `re.findall(r"-\s+(\S+)", block)` (fuelled scanner). -/
def findallTagsN : Nat → List Char → List (List Char)
  | 0, _ => []
  | _ + 1, [] => []
  | n + 1, c :: cs =>
    if c = '-' then
      let (sp, cs1) := spanL pyIsSpace cs
      if sp.isEmpty then findallTagsN n cs
      else
        let (tok, cs2) := spanL (fun c => !pyIsSpace c) cs1
        if tok.isEmpty then findallTagsN n cs
        else tok :: findallTagsN n cs2
    else findallTagsN n cs

/-- `tag_pattern.findall(tags_block)`. -/
def findallTags (cs : List Char) : List (List Char) :=
  findallTagsN (cs.length + 1) cs

/-- The `re.sub` scan over the whole content: removes every matched
block and reports the last matched block (the callback overwrites
`tags` on every match). -/
def tagsSubN : Nat → List Char → List Char × Option (List Char)
  | 0, cs => (cs, none)
  | _ + 1, [] => ([], none)
  | n + 1, c :: cs =>
    match matchTagsBlockAt (c :: cs) with
    | some (block, rest) =>
      let (r, b) := tagsSubN n rest
      (r, some (b.getD block))
    | none =>
      let (r, b) := tagsSubN n cs
      (c :: r, b)

/-- Whether some position of the text starts a tags-block match. -/
def hasTagsMatch : List Char → Bool
  | [] => false
  | c :: cs => (matchTagsBlockAt (c :: cs)).isSome || hasTagsMatch cs

/-- Python `":" + ":".join(tag_list) + ":"`. -/
def joinColon : List (List Char) → List Char
  | [] => []
  | [t] => t
  | t :: ts => t ++ ':' :: joinColon ts

/-- Roam-style tag annotation `:tag1:tag2:`. -/
def renderRoamTags (ts : List (List Char)) : List Char :=
  ':' :: (joinColon ts ++ [':'])

/-- Python `" ".join(...)`. -/
def joinSpace : List (List Char) → List Char
  | [] => []
  | [t] => t
  | t :: ts => t ++ ' ' :: joinSpace ts

/-- Org-style tag annotation `#+FILETAGS: :tag1: :tag2:`. -/
def renderOrgTags (ts : List (List Char)) : List Char :=
  "#+FILETAGS: ".data ++ joinSpace (ts.map (fun t => ':' :: (t ++ [':'])))

/-- The tag list collected from the last matched block (the local
`tag_list` of the callback on the run that ends up stored in `tags`). -/
def extract_tag_list (cs : List Char) : List (List Char) :=
  match (tagsSubN (cs.length + 1) cs).2 with
  | some b => findallTags b
  | none => []

/-- `extract_and_convert_tags` of `obsidian-to-roam.py` (and of the
top-level `obsidian-to-org.py`, which renders the same `:a:b:` string):
returns the content with every matched block removed together with the
rendered tags of the last matched block, `""` if none matched. -/
def extract_and_convert_tags (cs : List Char) : List Char × List Char :=
  let r := tagsSubN (cs.length + 1) cs
  (r.1, match r.2 with
        | some b => renderRoamTags (findallTags b)
        | none => [])

/-- `extract_and_convert_tags` of `Obsidian-To-Org/obsidian-to-org.py`:
identical scan, `#+FILETAGS:`-style rendering. -/
def extract_and_convert_tags_org (cs : List Char) : List Char × List Char :=
  let r := tagsSubN (cs.length + 1) cs
  (r.1, match r.2 with
        | some b => renderOrgTags (findallTags b)
        | none => [])

/- ### Header stripping (`remove_md_header`) -/

/-- The closing delimiter `\n---\n` of the front-matter pattern. -/
def delimL : List Char := ['\n', '-', '-', '-', '\n']

/-- Least offset at which `\n---\n` occurs (the lazy `.*?` of
`^---\n.*?\n---\n` stops at the first such occurrence). -/
def findDelim : List Char → Option Nat
  | [] => none
  | c :: cs =>
    if startsWithL delimL (c :: cs) then some 0
    else (findDelim cs).map (· + 1)

/-- Whether `^---\n.*?\n---\n` matches at the start of the text. -/
def headerMatches (cs : List Char) : Bool :=
  startsWithL "---\n".data cs && (findDelim (cs.drop 4)).isSome

/-- `remove_md_header`: `re.sub(r"^---\n.*?\n---\n", "", content, re.DOTALL)`.
Since `^` (without `re.MULTILINE`) only matches at position 0, at most one
region — the lazily shortest one — is removed. -/
def remove_md_header (cs : List Char) : List Char :=
  if startsWithL "---\n".data cs then
    match findDelim (cs.drop 4) with
    | some o => cs.drop (4 + o + 5)
    | none => cs
  else cs

/- ### Link and image rewriting

The wiki-link pattern is `\[\[(.*?)(?:#(.*?))?(?:\|(.*?))?\]\]` (no
`re.DOTALL`, so `.` never matches a newline), the image pattern is
`!\[(.*?)\]\((.*?)\)`.  An optional group that matched the empty string
yields `""` (not `None`); Python's truthiness treats both as absent in
the `if subheading:` / `if alias:` / `alias if alias else target` tests,
but `match.group(0)` still contains the `#`/`|` of a participating empty
group, so the scanners return `Option (List Char)` with `some []`
distinct from `none`. -/

/-- Python truthiness of an optional group value. -/
def truthy : Option (List Char) → Bool
  | some (_ :: _) => true
  | _ => false

/-- Lazy `(.*?)\]\]` of the alias group: consume characters until `]]`,
failing on a newline or the end of the text. -/
def scanAlias : List Char → Option (List Char × List Char)
  | [] => none
  | c :: cs =>
    if c = ']' ∧ cs.head? = some ']' then some ([], cs.tail)
    else if c = '\n' then none
    else (scanAlias cs).map (fun p => (c :: p.1, p.2))

/-- Lazy `(.*?)(?:\|(.*?))?\]\]` of the subheading group. -/
def scanSub : List Char → Option (List Char × Option (List Char) × List Char)
  | [] => none
  | c :: cs =>
    if c = ']' ∧ cs.head? = some ']' then some ([], none, cs.tail)
    else if c = '|' then (scanAlias cs).map (fun p => ([], some p.1, p.2))
    else if c = '\n' then none
    else (scanSub cs).map (fun p => (c :: p.1, p.2.1, p.2.2))

/-- Lazy `(.*?)(?:#(.*?))?(?:\|(.*?))?\]\]` of the target group, applied
after the opening `[[`: yields the three groups and the rest of the text. -/
def scanTarget : List Char → Option (List Char × Option (List Char) × Option (List Char) × List Char)
  | [] => none
  | c :: cs =>
    if c = ']' ∧ cs.head? = some ']' then some ([], none, none, cs.tail)
    else if c = '#' then (scanSub cs).map (fun p => ([], some p.1, p.2.1, p.2.2))
    else if c = '|' then (scanAlias cs).map (fun p => ([], none, some p.1, p.2))
    else if c = '\n' then none
    else (scanTarget cs).map (fun p => (c :: p.1, p.2.1, p.2.2.1, p.2.2.2))

/-- `match.group(0)` of a wiki-link match, reconstructed from its groups. -/
def linkGroup0 (target : List Char) (subheading aliasG : Option (List Char)) : List Char :=
  '[' :: '[' ::
    (target ++
      (match subheading with | some s => '#' :: s | none => []) ++
      (match aliasG with | some a => '|' :: a | none => []) ++
      [']', ']'])

/-- `transform_link` of `obsidian-to-roam.py` (identifier-resolving). -/
def transform_link (ids : List (List Char × List Char)) (target : List Char)
    (subheading aliasG : Option (List Char)) : List Char :=
  match dictLookup ids target with
  | some u =>
    let idLink := "id:".data ++ u ++
      (if truthy subheading then ':' :: ':' :: subheading.getD [] else [])
    '[' :: '[' :: (idLink ++ ']' :: '[' ::
      ((if truthy aliasG then aliasG.getD [] else target) ++ [']', ']']))
  | none => linkGroup0 target subheading aliasG

/-- `transform_link` of `Obsidian-To-Org/obsidian-to-org.py` (plain). -/
def transform_link_plain (target : List Char) (subheading aliasG : Option (List Char)) : List Char :=
  if truthy aliasG then
    if truthy subheading then
      '[' :: '[' :: (target ++ ':' :: ':' :: subheading.getD [] ++
        ']' :: '[' :: (aliasG.getD [] ++ [']', ']']))
    else
      '[' :: '[' :: (target ++ ']' :: '[' :: (aliasG.getD [] ++ [']', ']']))
  else
    if truthy subheading then
      '[' :: '[' :: (target ++ ':' :: ':' :: subheading.getD [] ++ [']', ']'])
    else
      '[' :: '[' :: (target ++ [']', ']'])

/-- Attempt the full wiki-link pattern anchored at the start of `cs`. -/
def matchLinkAt : List Char → Option (List Char × Option (List Char) × Option (List Char) × List Char)
  | [] => none
  | c :: cs => if c = '[' ∧ cs.head? = some '[' then scanTarget cs.tail else none

/-- The `re.sub(link_pattern, tr, content)` scan, generic in the
replacement callback (fuelled; a match consumes at least four characters
and a failed attempt advances one position). -/
def linkSubN (tr : List Char → Option (List Char) → Option (List Char) → List Char) :
    Nat → List Char → List Char
  | 0, cs => cs
  | _ + 1, [] => []
  | n + 1, c :: cs =>
    match matchLinkAt (c :: cs) with
    | some (t, s, a, rest) => tr t s a ++ linkSubN tr n rest
    | none => c :: linkSubN tr n cs

/-- Whether some position of the text starts a wiki-link match. -/
def hasLinkMatch : List Char → Bool
  | [] => false
  | c :: cs => (matchLinkAt (c :: cs)).isSome || hasLinkMatch cs

/-- `transform_image`: `![alt](path)` becomes `[[file:path][alt]]`. -/
def transform_image (altText path : List Char) : List Char :=
  "[[file:".data ++ path ++ ']' :: '[' :: (altText ++ [']', ']'])

/-- Lazy `(.*?)\]\(` of the alt-text group: consume until `](`, failing
on a newline or the end of the text. -/
def scanAlt : List Char → Option (List Char × List Char)
  | [] => none
  | c :: cs =>
    if c = ']' ∧ cs.head? = some '(' then some ([], cs.tail)
    else if c = '\n' then none
    else (scanAlt cs).map (fun p => (c :: p.1, p.2))

/-- Lazy `(.*?)\)` of the image-path group. -/
def scanPath : List Char → Option (List Char × List Char)
  | [] => none
  | c :: cs =>
    if c = ')' then some ([], cs)
    else if c = '\n' then none
    else (scanPath cs).map (fun p => (c :: p.1, p.2))

/-- Lazy alt and path groups after the opening `![`. -/
def matchImageGroups (cs : List Char) : Option (List Char × List Char × List Char) :=
  match scanAlt cs with
  | none => none
  | some (alt, cs2) =>
    match scanPath cs2 with
    | none => none
    | some (p, rest) => some (alt, p, rest)

/-- Attempt the full image pattern anchored at the start of `cs`. -/
def matchImageAt : List Char → Option (List Char × List Char × List Char)
  | [] => none
  | c :: cs => if c = '!' ∧ cs.head? = some '[' then matchImageGroups cs.tail else none

/-- The `re.sub(image_pattern, transform_image, content)` scan. -/
def imageSubN : Nat → List Char → List Char
  | 0, cs => cs
  | _ + 1, [] => []
  | n + 1, c :: cs =>
    match matchImageAt (c :: cs) with
    | some (alt, p, rest) => transform_image alt p ++ imageSubN n rest
    | none => c :: imageSubN n cs

/-- Whether some position of the text starts an image match. -/
def hasImageMatch : List Char → Bool
  | [] => false
  | c :: cs => (matchImageAt (c :: cs)).isSome || hasImageMatch cs

/-- `convert_links_and_images` of `obsidian-to-roam.py`: the link
substitution followed by the image substitution. -/
def convert_links_and_images (ids : List (List Char × List Char)) (cs : List Char) : List Char :=
  let c1 := linkSubN (transform_link ids) (cs.length + 1) cs
  imageSubN (c1.length + 1) c1

/-- `convert_links` of `Obsidian-To-Org/obsidian-to-org.py`: plain link
substitution only, no identifier index and no image handling. -/
def convert_links (cs : List Char) : List Char :=
  linkSubN transform_link_plain (cs.length + 1) cs

/- ### Header generation and the identifier index -/

/-- `generate_org_roam_header` of `obsidian-to-roam.py` (property-drawer
convention).  `title` is the stem of the output file's name and `uid`
the freshly generated `uuid.uuid4()`; both are parameters here.  The
Python `{tags if tags else ''}` interpolates `tags` either way. -/
def generate_org_roam_header (title tags uid : List Char) : List Char × List Char :=
  (":PROPERTIES:\n:ID: ".data ++ uid ++ "\n:END:\n#+title: ".data ++ title ++
    "\n#+ROAM_TAGS: ".data ++ tags ++ "\n\n".data, uid)

/-- `generate_org_roam_header` of the top-level `obsidian-to-org.py`
(inline-directive convention): every field is a `#+`-directive line. -/
def generate_org_roam_header_org (title tags uid : List Char) : List Char :=
  "#+title: ".data ++ title ++ '\n' ::
    ((if tags.isEmpty then "#+filetags:".data else "#+filetags: ".data ++ tags) ++
      "\n#+roam_aliases: \n#+id: ".data ++ uid ++ "\n\n".data)

/-- Attempt `:ID:\s+(\S+)` anchored at the start of `cs`. -/
def matchIdAt (cs : List Char) : Option (List Char) :=
  if startsWithL ":ID:".data cs then
    let (sp, cs2) := spanL pyIsSpace (cs.drop 4)
    if sp.isEmpty then none
    else
      let (tok, _) := spanL (fun c => !pyIsSpace c) cs2
      if tok.isEmpty then none else some tok
  else none

/-- `re.search(r":ID:\s+(\S+)", content)`: group 1 of the leftmost match. -/
def searchId : List Char → Option (List Char)
  | [] => none
  | c :: cs =>
    match matchIdAt (c :: cs) with
    | some t => some t
    | none => searchId cs

/-- `build_existing_ids_map`: each scanned output file is given as a pair
of its filename stem (the title) and its content; files without a
recognizable `:ID:` marker are skipped silently. -/
def build_existing_ids_map (files : List (List Char × List Char)) :
    List (List Char × List Char) :=
  files.foldl
    (fun m f =>
      match searchId f.2 with
      | some i => dictInsert m f.1 i
      | none => m) []

/-- The identifier-index effect of one `convert_file` call: line 133 of
`obsidian-to-roam.py` assigns `existing_ids[stem] = unique_id`
unconditionally.  A run is the fold of these assignments, each
conversion given as a pair of the file's stem and its fresh identifier. -/
def runConvert (ids : List (List Char × List Char))
    (convs : List (List Char × List Char)) : List (List Char × List Char) :=
  convs.foldl (fun m p => dictInsert m p.1 p.2) ids

/-- The identifier assigned by the last conversion of a given title in a
run, if any. -/
def lastAssign (convs : List (List Char × List Char)) (t : List Char) : Option (List Char) :=
  convs.foldl (fun acc p => if p.1 = t then some p.2 else acc) none

/- ## Basic lemmas -/

/-- Head-condition: the first character of `ys` (if any) falsifies `p`. -/
def headNot (p : Char → Bool) (ys : List Char) : Prop :=
  ∀ c, ys.head? = some c → p c = false

theorem headNot_nil (p : Char → Bool) : headNot p [] := by
  intro c h
  simp at h

theorem headNot_cons {p : Char → Bool} {c : Char} {ys : List Char} (h : p c = false) :
    headNot p (c :: ys) := by
  intro d hd
  simp at hd
  rwa [← hd]

theorem pyIsWord_not_space {c : Char} (h : pyIsWord c = true) : pyIsSpace c = false := by
  by_contra hs
  rw [Bool.not_eq_false] at hs
  simp only [pyIsSpace, Bool.or_eq_true, decide_eq_true_eq] at hs
  rcases hs with ((((h1 | h1) | h1) | h1) | h1) | h1 <;> subst h1 <;> exact absurd h (by decide)

theorem pyIsWord_ne_of {c d : Char} (h : pyIsWord c = true) (hd : pyIsWord d = false) : c ≠ d := by
  intro he
  subst he
  simp [h] at hd

theorem ne_of_not_space {c d : Char} (h : pyIsSpace c = false) (hd : pyIsSpace d = true) : c ≠ d := by
  intro he
  subst he
  simp [h] at hd

theorem startsWithL_append (p rest : List Char) : startsWithL p (p ++ rest) = true := by
  induction p with
  | nil => rfl
  | cons c cs ih => simp [startsWithL, ih]

theorem eq_append_of_startsWithL {p cs : List Char} (h : startsWithL p cs = true) :
    ∃ r, cs = p ++ r := by
  induction p generalizing cs with
  | nil => exact ⟨cs, rfl⟩
  | cons a ps ih =>
    cases cs with
    | nil => simp [startsWithL] at h
    | cons c cs' =>
      simp only [startsWithL, Bool.and_eq_true, decide_eq_true_eq] at h
      obtain ⟨r, hr⟩ := ih h.2
      exact ⟨r, by simp [hr, h.1]⟩

theorem hasSubstr_of_startsWith {p cs : List Char} (h : startsWithL p cs = true) :
    hasSubstr p cs = true := by
  cases cs with
  | nil => simpa [hasSubstr] using h
  | cons c cs' => simp [hasSubstr, h]

theorem hasSubstr_intro (p pre post : List Char) : hasSubstr p (pre ++ (p ++ post)) = true := by
  induction pre with
  | nil => exact hasSubstr_of_startsWith (startsWithL_append p post)
  | cons c pre' ih => simp [hasSubstr, ih]

theorem spanL_split (p : Char → Bool) (xs : List Char) (hx : ∀ c ∈ xs, p c = true)
    (ys : List Char) (hy : headNot p ys) : spanL p (xs ++ ys) = (xs, ys) := by
  induction xs with
  | nil =>
    cases ys with
    | nil => rfl
    | cons c ys' => simp [spanL, hy c rfl]
  | cons x xs' ih =>
    have hpx : p x = true := hx x (List.mem_cons_self x xs')
    have := ih (fun c hc => hx c (List.mem_cons_of_mem x hc))
    simp [spanL, hpx, this]

/- ## Tag-extraction lemmas -/

theorem colon_mem_of_tags_match {cs : List Char} (h : (matchTagsBlockAt cs).isSome = true) :
    ':' ∈ cs := by
  unfold matchTagsBlockAt at h
  by_cases hs : startsWithL "tags:".data cs = true
  · obtain ⟨r, hr⟩ := eq_append_of_startsWithL hs
    subst hr
    have : ':' ∈ "tags:".data := by decide
    exact List.mem_append_left r this
  · rw [Bool.not_eq_true] at hs
    rw [hs] at h
    simp at h

theorem hasTagsMatch_false_of_no_colon {cs : List Char} (h : ':' ∉ cs) :
    hasTagsMatch cs = false := by
  induction cs with
  | nil => rfl
  | cons c cs ih =>
    rw [hasTagsMatch]
    have h1 : (matchTagsBlockAt (c :: cs)).isSome = false := by
      by_contra hh
      rw [Bool.not_eq_false] at hh
      exact h (colon_mem_of_tags_match hh)
    rw [h1, ih (fun hm => h (List.mem_cons_of_mem c hm))]
    rfl

theorem tagsSubN_no_match : ∀ (n : Nat) {cs : List Char}, hasTagsMatch cs = false →
    tagsSubN n cs = (cs, none) := by
  intro n
  induction n with
  | zero => intro cs _; rfl
  | succ n ih =>
    intro cs h
    cases cs with
    | nil => rfl
    | cons c cs' =>
      rw [hasTagsMatch, Bool.or_eq_false_iff] at h
      cases hm : matchTagsBlockAt (c :: cs') with
      | some p => rw [hm] at h; simp at h
      | none => simp [tagsSubN, hm, ih h.2]

theorem extract_no_match {cs : List Char} (h : hasTagsMatch cs = false) :
    extract_and_convert_tags cs = (cs, []) := by
  unfold extract_and_convert_tags
  rw [tagsSubN_no_match _ h]

theorem extract_org_no_match {cs : List Char} (h : hasTagsMatch cs = false) :
    extract_and_convert_tags_org cs = (cs, []) := by
  unfold extract_and_convert_tags_org
  rw [tagsSubN_no_match _ h]

theorem extract_tag_list_no_match {cs : List Char} (h : hasTagsMatch cs = false) :
    extract_tag_list cs = [] := by
  unfold extract_tag_list
  rw [tagsSubN_no_match _ h]

/- ## Recognized tags-block shapes -/

/-- The list-item lines `- w\n` of a spec-shaped tags block. -/
def itemsText : List (List Char) → List Char
  | [] => []
  | w :: ws => '-' :: ' ' :: (w ++ '\n' :: itemsText ws)

/-- A spec-shaped tags block: a `tags:` line followed by one `- word`
line per tag. -/
def blockText (ws : List (List Char)) : List Char :=
  't' :: 'a' :: 'g' :: 's' :: ':' :: '\n' :: itemsText ws

/-- A bare word token: nonempty and made of word characters only. -/
def wordStr (w : List Char) : Prop := w ≠ [] ∧ ∀ c ∈ w, pyIsWord c = true

/-- The character following a block (if any) neither extends the block's
trailing `\s*` nor starts a further list item. -/
def blockEnd : List Char → Prop
  | [] => True
  | c :: _ => pyIsSpace c = false ∧ c ≠ '-'

theorem blockEnd_headNot {Z : List Char} (h : blockEnd Z) : headNot pyIsSpace Z := by
  cases Z with
  | nil => exact headNot_nil _
  | cons c z => exact headNot_cons h.1

theorem headNot_space_of_word {w : List Char} (hw : wordStr w) (rest : List Char) :
    headNot pyIsSpace (w ++ rest) := by
  cases w with
  | nil => exact absurd rfl hw.1
  | cons a w' =>
    exact headNot_cons (pyIsWord_not_space (hw.2 a (List.mem_cons_self a w')))

theorem matchItem_shape {w : List Char} (hw : wordStr w) {rest : List Char}
    (hr : headNot pyIsSpace rest) :
    matchItem ('-' :: ' ' :: (w ++ '\n' :: rest)) =
      some ('-' :: ' ' :: (w ++ ['\n']), rest) := by
  have h1 : spanL pyIsSpace (' ' :: (w ++ '\n' :: rest)) = ([' '], w ++ '\n' :: rest) :=
    spanL_split pyIsSpace [' '] (by intro c hc; simp at hc; subst hc; decide)
      (w ++ '\n' :: rest) (headNot_space_of_word hw _)
  have h2 : spanL pyIsWord (w ++ '\n' :: rest) = (w, '\n' :: rest) :=
    spanL_split pyIsWord w hw.2 ('\n' :: rest) (headNot_cons (by decide))
  have h3 : spanL pyIsSpace ('\n' :: rest) = (['\n'], rest) :=
    spanL_split pyIsSpace ['\n'] (by intro c hc; simp at hc; subst hc; decide)
      rest hr
  have hwne : w.isEmpty = false := by
    cases w with
    | nil => exact absurd rfl hw.1
    | cons a w' => rfl
  simp [matchItem, h1, h2, h3, hwne]

theorem matchItemsN_none_of_blockEnd (n : Nat) {Z : List Char} (hZ : blockEnd Z) :
    matchItemsN n Z = none := by
  cases n with
  | zero => rfl
  | succ n =>
    rw [matchItemsN]
    have h : matchItem Z = none := by
      cases Z with
      | nil => rfl
      | cons c z => simp [matchItem, hZ.2]
    rw [h]

theorem matchItemsN_shape : ∀ (ws : List (List Char)) (n : Nat) (Z : List Char),
    ws ≠ [] → (∀ w ∈ ws, wordStr w) → blockEnd Z → ws.length ≤ n →
    matchItemsN n (itemsText ws ++ Z) = some (itemsText ws, Z) := by
  intro ws
  induction ws with
  | nil => intro n Z h; exact absurd rfl h
  | cons w ws' ih =>
    intro n Z _ hws hZ hn
    obtain ⟨m, rfl⟩ : ∃ m, n = m + 1 :=
      ⟨n - 1, by simp [List.length_cons] at hn; omega⟩
    have hw : wordStr w := hws w (List.mem_cons_self _ _)
    rw [matchItemsN]
    cases ws' with
    | nil =>
      have hshape : itemsText [w] ++ Z = '-' :: ' ' :: (w ++ '\n' :: Z) := by
        simp [itemsText]
      rw [hshape, matchItem_shape hw (blockEnd_headNot hZ)]
      simp [matchItemsN_none_of_blockEnd m hZ, itemsText]
    | cons w2 ws'' =>
      have hshape : itemsText (w :: w2 :: ws'') ++ Z =
          '-' :: ' ' :: (w ++ '\n' :: (itemsText (w2 :: ws'') ++ Z)) := by
        simp [itemsText]
      have hhead : headNot pyIsSpace (itemsText (w2 :: ws'') ++ Z) := by
        rw [itemsText]
        exact headNot_cons (by decide)
      have hih := ih m Z (by simp) (fun x hx => hws x (List.mem_cons_of_mem w hx)) hZ
        (by simp [List.length_cons] at hn ⊢; omega)
      simp only [itemsText, List.cons_append, List.append_assoc] at hih
      rw [hshape, matchItem_shape hw hhead]
      simp only [itemsText, List.cons_append, List.append_assoc]
      simp [hih]

theorem length_le_itemsText (ws : List (List Char)) : ws.length ≤ (itemsText ws).length := by
  induction ws with
  | nil => simp [itemsText]
  | cons w ws' ih => simp [itemsText]; omega

theorem matchTagsBlockAt_shape {ws : List (List Char)} (hne : ws ≠ [])
    (hws : ∀ w ∈ ws, wordStr w) {Z : List Char} (hZ : blockEnd Z) :
    matchTagsBlockAt (blockText ws ++ Z) = some (blockText ws, Z) := by
  have hdata : "tags:".data = ['t', 'a', 'g', 's', ':'] := rfl
  have hpre : blockText ws ++ Z = "tags:".data ++ ('\n' :: (itemsText ws ++ Z)) := by
    simp [blockText, hdata]
  have hsw : startsWithL "tags:".data (blockText ws ++ Z) = true := by
    rw [hpre]; exact startsWithL_append _ _
  have hdrop : (blockText ws ++ Z).drop 5 = '\n' :: (itemsText ws ++ Z) := by
    rw [hpre]
    have h5 : ("tags:".data).length = 5 := rfl
    rw [← h5, List.drop_left]
  have hhead : headNot pyIsSpace (itemsText ws ++ Z) := by
    cases ws with
    | nil => exact absurd rfl hne
    | cons w ws' =>
      rw [itemsText]
      exact headNot_cons (by decide)
  have hspan : spanL pyIsSpace ('\n' :: (itemsText ws ++ Z)) = (['\n'], itemsText ws ++ Z) :=
    spanL_split pyIsSpace ['\n'] (by intro c hc; simp at hc; subst hc; decide)
      (itemsText ws ++ Z) hhead
  have hfuel : ws.length ≤ (itemsText ws ++ Z).length + 1 := by
    have := length_le_itemsText ws
    simp [List.length_append]
    omega
  have hitems := matchItemsN_shape ws ((itemsText ws ++ Z).length + 1) Z hne hws hZ hfuel
  rw [matchTagsBlockAt, if_pos hsw, hdrop, hspan]
  simp only [hitems]
  simp [blockText, hdata]

theorem tagsSubN_block (n : Nat) {ws : List (List Char)} (hne : ws ≠ [])
    (hws : ∀ w ∈ ws, wordStr w) {Z : List Char} (hZ : blockEnd Z) :
    tagsSubN (n + 1) (blockText ws ++ Z) =
      ((tagsSubN n Z).1, some ((tagsSubN n Z).2.getD (blockText ws))) := by
  have hm := matchTagsBlockAt_shape hne hws hZ
  have hcons : blockText ws ++ Z = 't' :: (('a' :: 'g' :: 's' :: ':' :: '\n' :: itemsText ws) ++ Z) := by
    simp [blockText]
  rw [hcons] at hm ⊢
  rw [tagsSubN, hm]


theorem findallTagsN_skip {c : Char} (hc : ¬ c = '-') (n : Nat) (cs : List Char) :
    findallTagsN (n + 1) (c :: cs) = findallTagsN n cs := by
  rw [findallTagsN, if_neg hc]

theorem findallTagsN_skipAll : ∀ (pre : List Char), (∀ c ∈ pre, ¬ c = '-') →
    ∀ (n : Nat) (cs : List Char), pre.length ≤ n →
    findallTagsN n (pre ++ cs) = findallTagsN (n - pre.length) cs := by
  intro pre
  induction pre with
  | nil => intro _ n cs _; simp
  | cons c pre' ih =>
    intro hpre n cs hn
    obtain ⟨m, rfl⟩ : ∃ m, n = m + 1 := ⟨n - 1, by simp at hn; omega⟩
    rw [List.cons_append, findallTagsN_skip (hpre c (List.mem_cons_self _ _)) m (pre' ++ cs),
      ih (fun d hd => hpre d (List.mem_cons_of_mem c hd)) m cs (by simp at hn; omega)]
    simp [List.length_cons]

theorem findallTagsN_items : ∀ (ws : List (List Char)) (n : Nat),
    (∀ w ∈ ws, wordStr w) → (itemsText ws).length < n →
    findallTagsN n (itemsText ws) = ws := by
  intro ws
  induction ws with
  | nil => intro n _ _; cases n <;> rfl
  | cons w ws' ih =>
    intro n hws hlen
    have hw : wordStr w := hws w (List.mem_cons_self _ _)
    have hwl : 1 ≤ w.length := by
      cases w with
      | nil => exact absurd rfl hw.1
      | cons a w' => simp
    have hlen' : (itemsText (w :: ws')).length = 3 + w.length + (itemsText ws').length := by
      simp [itemsText]
      omega
    obtain ⟨m, rfl⟩ : ∃ m, n = m + 1 := ⟨n - 1, by omega⟩
    have hsp : spanL pyIsSpace (' ' :: (w ++ '\n' :: itemsText ws')) =
        ([' '], w ++ '\n' :: itemsText ws') :=
      spanL_split pyIsSpace [' '] (by intro c hc; simp at hc; subst hc; decide)
        _ (headNot_space_of_word hw _)
    have htok : spanL (fun c => !pyIsSpace c) (w ++ '\n' :: itemsText ws') =
        (w, '\n' :: itemsText ws') :=
      spanL_split _ w (by intro c hc; rw [pyIsWord_not_space (hw.2 c hc)]; rfl)
        _ (headNot_cons (by decide))
    have hwne : w.isEmpty = false := by
      cases w with
      | nil => exact absurd rfl hw.1
      | cons a w' => rfl
    obtain ⟨m', rfl⟩ : ∃ m', m = m' + 1 := ⟨m - 1, by rw [hlen'] at hlen; omega⟩
    rw [itemsText, findallTagsN, if_pos rfl]
    simp only [hsp, htok, hwne, List.isEmpty_cons, Bool.false_eq_true, if_false]
    rw [findallTagsN_skip (by decide) m' (itemsText ws'),
      ih m' (fun x hx => hws x (List.mem_cons_of_mem w hx)) (by rw [hlen'] at hlen; omega)]

theorem no_colon_word {w : List Char} (hw : ∀ c ∈ w, pyIsWord c = true) : ':' ∉ w := by
  intro hmem
  exact absurd (hw ':' hmem) (by decide)

theorem findallTags_block {ws : List (List Char)} (hws : ∀ w ∈ ws, wordStr w) :
    findallTags (blockText ws) = ws := by
  unfold findallTags
  have hpre : blockText ws = ['t', 'a', 'g', 's', ':', '\n'] ++ itemsText ws := by
    simp [blockText]
  rw [hpre, findallTagsN_skipAll ['t', 'a', 'g', 's', ':', '\n'] (by decide) _ _
    (by simp [List.length_append]),
    findallTagsN_items ws _ hws (by simp [List.length_append])]

theorem blockEnd_nil : blockEnd [] := trivial

theorem tagsSubN_nil (n : Nat) : tagsSubN n [] = ([], none) := by
  cases n <;> rfl

theorem extract_and_convert_tags_block {ws : List (List Char)} (hne : ws ≠ [])
    (hws : ∀ w ∈ ws, wordStr w) :
    extract_and_convert_tags (blockText ws) = ([], renderRoamTags ws) := by
  have h := tagsSubN_block ((blockText ws).length) hne hws blockEnd_nil
  rw [List.append_nil, tagsSubN_nil] at h
  unfold extract_and_convert_tags
  rw [h]
  simp [findallTags_block hws]

theorem extract_and_convert_tags_org_block {ws : List (List Char)} (hne : ws ≠ [])
    (hws : ∀ w ∈ ws, wordStr w) :
    extract_and_convert_tags_org (blockText ws) = ([], renderOrgTags ws) := by
  have h := tagsSubN_block ((blockText ws).length) hne hws blockEnd_nil
  rw [List.append_nil, tagsSubN_nil] at h
  unfold extract_and_convert_tags_org
  rw [h]
  simp [findallTags_block hws]

theorem extract_tag_list_block {ws : List (List Char)} (hne : ws ≠ [])
    (hws : ∀ w ∈ ws, wordStr w) :
    extract_tag_list (blockText ws) = ws := by
  have h := tagsSubN_block ((blockText ws).length) hne hws blockEnd_nil
  rw [List.append_nil, tagsSubN_nil] at h
  unfold extract_tag_list
  rw [h]
  simp [findallTags_block hws]

theorem pyIsSpace_not_word {c : Char} (h : pyIsSpace c = true) : pyIsWord c = false := by
  by_contra hw
  rw [Bool.not_eq_false] at hw
  rw [pyIsWord_not_space hw] at h
  exact Bool.false_ne_true h

theorem matchItem_shape_sep {w : List Char} (hw : wordStr w) {sep : Char}
    (hsep : pyIsSpace sep = true) {rest : List Char} (hr : headNot pyIsSpace rest) :
    matchItem ('-' :: ' ' :: (w ++ sep :: rest)) = some ('-' :: ' ' :: (w ++ [sep]), rest) := by
  have h1 : spanL pyIsSpace (' ' :: (w ++ sep :: rest)) = ([' '], w ++ sep :: rest) :=
    spanL_split pyIsSpace [' '] (by intro c hc; simp at hc; subst hc; decide)
      (w ++ sep :: rest) (headNot_space_of_word hw _)
  have h2 : spanL pyIsWord (w ++ sep :: rest) = (w, sep :: rest) :=
    spanL_split pyIsWord w hw.2 (sep :: rest) (headNot_cons (pyIsSpace_not_word hsep))
  have h3 : spanL pyIsSpace (sep :: rest) = ([sep], rest) :=
    spanL_split pyIsSpace [sep] (by intro c hc; simp at hc; subst hc; exact hsep) rest hr
  have hwne : w.isEmpty = false := by
    cases w with
    | nil => exact absurd rfl hw.1
    | cons a w' => rfl
  simp [matchItem, h1, h2, h3, hwne]

/-- Partial recognition of a multi-word list item `- w1 w2`: the block
match stops after `w1 ` and the second word stays in the body; the tag
scan over the removed block collects only `w1`. -/
theorem extract_multiword {w1 w2 : List Char} (h1 : wordStr w1) (h2 : wordStr w2) :
    extract_and_convert_tags
        ('t' :: 'a' :: 'g' :: 's' :: ':' :: '\n' :: '-' :: ' ' :: (w1 ++ ' ' :: (w2 ++ ['\n']))) =
      (w2 ++ ['\n'], ':' :: (w1 ++ [':'])) := by
  have hw2head : headNot pyIsSpace (w2 ++ ['\n']) := headNot_space_of_word h2 _
  have hw2end : blockEnd (w2 ++ ['\n']) := by
    cases w2 with
    | nil => exact absurd rfl h2.1
    | cons a w' =>
      have ha : pyIsWord a = true := h2.2 a (List.mem_cons_self _ _)
      exact ⟨pyIsWord_not_space ha, fun he => absurd ha (by rw [he]; decide)⟩
  have hitem : matchItem ('-' :: ' ' :: (w1 ++ ' ' :: (w2 ++ ['\n']))) =
      some ('-' :: ' ' :: (w1 ++ [' ']), w2 ++ ['\n']) :=
    matchItem_shape_sep h1 (by decide) hw2head
  have hitems : ∀ m : Nat, matchItemsN (m + 1)
      ('-' :: ' ' :: (w1 ++ ' ' :: (w2 ++ ['\n']))) =
      some ('-' :: ' ' :: (w1 ++ [' ']), w2 ++ ['\n']) := by
    intro m
    rw [matchItemsN, hitem]
    simp [matchItemsN_none_of_blockEnd m hw2end]
  have hdata : "tags:".data = ['t', 'a', 'g', 's', ':'] := rfl
  have hM : matchTagsBlockAt
      ('t' :: 'a' :: 'g' :: 's' :: ':' :: '\n' :: '-' :: ' ' :: (w1 ++ ' ' :: (w2 ++ ['\n']))) =
      some ('t' :: 'a' :: 'g' :: 's' :: ':' :: '\n' :: '-' :: ' ' :: (w1 ++ [' ']), w2 ++ ['\n']) := by
    have hpre : 't' :: 'a' :: 'g' :: 's' :: ':' :: '\n' :: '-' :: ' ' :: (w1 ++ ' ' :: (w2 ++ ['\n'])) =
        "tags:".data ++ ('\n' :: '-' :: ' ' :: (w1 ++ ' ' :: (w2 ++ ['\n']))) := by
      simp [hdata]
    have hspan : spanL pyIsSpace ('\n' :: '-' :: ' ' :: (w1 ++ ' ' :: (w2 ++ ['\n']))) =
        (['\n'], '-' :: ' ' :: (w1 ++ ' ' :: (w2 ++ ['\n']))) :=
      spanL_split pyIsSpace ['\n'] (by intro c hc; simp at hc; subst hc; decide)
        _ (headNot_cons (by decide))
    rw [hpre, matchTagsBlockAt, if_pos (startsWithL_append _ _)]
    simp only [hdata,
      show ∀ X : List Char, List.drop 5 (['t', 'a', 'g', 's', ':'] ++ X) = X from fun X => rfl,
      hspan]
    rw [hitems]
    simp
  have hnomatch : hasTagsMatch (w2 ++ ['\n']) = false := by
    apply hasTagsMatch_false_of_no_colon
    intro hc
    rcases List.mem_append.mp hc with h | h
    · exact no_colon_word h2.2 h
    · simp at h
  have hsub := tagsSubN_no_match
    (('t' :: 'a' :: 'g' :: 's' :: ':' :: '\n' :: '-' :: ' ' :: (w1 ++ ' ' :: (w2 ++ ['\n']))).length)
    hnomatch
  unfold extract_and_convert_tags
  rw [tagsSubN, hM]
  simp only [hsub]
  have hblock : findallTags ('t' :: 'a' :: 'g' :: 's' :: ':' :: '\n' :: '-' :: ' ' :: (w1 ++ [' '])) =
      [w1] := by
    have hpre : 't' :: 'a' :: 'g' :: 's' :: ':' :: '\n' :: '-' :: ' ' :: (w1 ++ [' ']) =
        ['t', 'a', 'g', 's', ':', '\n'] ++ ('-' :: ' ' :: (w1 ++ [' '])) := by
      simp
    unfold findallTags
    rw [hpre, findallTagsN_skipAll ['t', 'a', 'g', 's', ':', '\n'] (by decide) _ _
      (by simp [List.length_append])]
    have hlen : (['t', 'a', 'g', 's', ':', '\n'] ++ ('-' :: ' ' :: (w1 ++ [' ']))).length + 1 -
        (['t', 'a', 'g', 's', ':', '\n'] : List Char).length = w1.length + 4 := by
      simp [List.length_append]
    rw [hlen]
    have hsp : spanL pyIsSpace (' ' :: (w1 ++ [' '])) = ([' '], w1 ++ [' ']) :=
      spanL_split pyIsSpace [' '] (by intro c hc; simp at hc; subst hc; decide)
        _ (headNot_space_of_word h1 _)
    have htok : spanL (fun c => !pyIsSpace c) (w1 ++ [' ']) = (w1, [' ']) :=
      spanL_split _ w1 (by intro c hc; rw [pyIsWord_not_space (h1.2 c hc)]; rfl)
        [' '] (headNot_cons (by decide))
    have hw1ne : w1.isEmpty = false := by
      cases w1 with
      | nil => exact absurd rfl h1.1
      | cons a w' => rfl
    have hw4 : w1.length + 4 = (w1.length + 3) + 1 := by omega
    rw [hw4, findallTagsN, if_pos rfl]
    simp only [hsp, htok, hw1ne, List.isEmpty_cons, Bool.false_eq_true, if_false]
    have hw3 : w1.length + 3 = (w1.length + 2) + 1 := by omega
    rw [hw3, findallTagsN_skip (by decide) _ []]
    cases hv : w1.length + 2 with
    | zero => omega
    | succ k => rfl
  simp only [Option.getD_none]
  rw [hblock]
  simp [renderRoamTags, joinColon]

/- ## Header-stripper lemmas -/

theorem findDelim_first : ∀ (cs : List Char) (k : Nat),
    startsWithL delimL (cs.drop k) = true →
    (∀ o, o < k → startsWithL delimL (cs.drop o) = false) →
    findDelim cs = some k := by
  intro cs k
  induction k generalizing cs with
  | zero =>
    intro h _
    cases cs with
    | nil => simp [delimL, startsWithL] at h
    | cons c cs' =>
      rw [List.drop_zero] at h
      rw [findDelim, if_pos h]
  | succ k ih =>
    intro h hlt
    cases cs with
    | nil => rw [List.drop_nil] at h; simp [delimL, startsWithL] at h
    | cons c cs' =>
      have h0 : startsWithL delimL (c :: cs') = false := by simpa using hlt 0 (Nat.succ_pos k)
      rw [findDelim, if_neg (by simp [h0])]
      have hk : startsWithL delimL (cs'.drop k) = true := by simpa using h
      have hlt' : ∀ o, o < k → startsWithL delimL (cs'.drop o) = false := by
        intro o ho
        simpa using hlt (o + 1) (by omega)
      rw [ih cs' hk hlt']
      rfl

theorem delim_prefix_cases {Y Z : List Char} (hY : Y ≠ [])
    (h : startsWithL delimL (Y ++ (delimL ++ Z)) = true) :
    (∃ t, Y = delimL ++ t) ∨ Y = ['\n', '-', '-', '-'] := by
  obtain ⟨r, hr⟩ := eq_append_of_startsWithL h
  by_cases h5 : 5 ≤ Y.length
  · left
    refine ⟨Y.drop 5, ?_⟩
    have htake : Y.take 5 = delimL := by
      have h1 : (Y ++ (delimL ++ Z)).take 5 = Y.take 5 :=
        List.take_append_of_le_length h5
      have h2 : (delimL ++ r).take 5 = delimL := by
        have h3 := List.take_left delimL r
        rw [show (delimL).length = 5 from rfl] at h3
        exact h3
      rw [hr] at h1
      rw [h2] at h1
      exact h1.symm
    conv_lhs => rw [← List.take_append_drop 5 Y, htake]
  · push_neg at h5
    rcases Y with _ | ⟨y1, Y⟩
    · exact absurd rfl hY
    rcases Y with _ | ⟨y2, Y⟩
    · simp [delimL] at hr
    rcases Y with _ | ⟨y3, Y⟩
    · simp [delimL] at hr
    rcases Y with _ | ⟨y4, Y⟩
    · simp [delimL] at hr
    rcases Y with _ | ⟨y5, Y⟩
    · right
      simp [delimL] at hr
      simp [hr.1, hr.2.1, hr.2.2.1, hr.2.2.2.1]
    · simp at h5
      omega

theorem no_early_delim {X R : List Char}
    (hX : hasSubstr delimL ('\n' :: (X ++ ['\n'])) = false) :
    ∀ o, o < X.length → startsWithL delimL ((X ++ (delimL ++ R)).drop o) = false := by
  intro o ho
  by_contra hb
  rw [Bool.not_eq_false] at hb
  have hdrop : (X ++ (delimL ++ R)).drop o = X.drop o ++ (delimL ++ R) :=
    List.drop_append_of_le_length (le_of_lt ho)
  rw [hdrop] at hb
  have hne : X.drop o ≠ [] := by
    intro he
    have := congrArg List.length he
    simp at this
    omega
  have hsplit : X = X.take o ++ X.drop o := (List.take_append_drop o X).symm
  rcases delim_prefix_cases hne hb with ⟨t, ht⟩ | ht
  · have hpad : '\n' :: (X ++ ['\n']) =
        ('\n' :: X.take o) ++ (delimL ++ (t ++ ['\n'])) := by
      conv_lhs => rw [hsplit, ht]
      simp
    rw [hpad, hasSubstr_intro] at hX
    exact absurd hX (by simp)
  · have hpad : '\n' :: (X ++ ['\n']) =
        ('\n' :: X.take o) ++ (delimL ++ ([] ++ [])) := by
      conv_lhs => rw [hsplit, ht]
      simp [delimL]
    rw [hpad, hasSubstr_intro] at hX
    exact absurd hX (by simp)

/-- The Header Stripper on a well-formed front-matter prefix: exactly the
prefix `---\nX\n---\n` is removed when `X` contains no `---` line (here:
the padded `X` contains no `\n---\n` substring). -/
theorem remove_md_header_front {X R : List Char}
    (hX : hasSubstr delimL ('\n' :: (X ++ ['\n'])) = false) :
    remove_md_header (['-', '-', '-', '\n'] ++ (X ++ (delimL ++ R))) = R := by
  have hdata : "---\n".data = ['-', '-', '-', '\n'] := rfl
  have hsw : startsWithL "---\n".data (['-', '-', '-', '\n'] ++ (X ++ (delimL ++ R))) = true := by
    rw [hdata]
    exact startsWithL_append _ _
  have hdrop4 : ∀ W : List Char, List.drop 4 (['-', '-', '-', '\n'] ++ W) = W := fun W => rfl
  have hfd : findDelim (X ++ (delimL ++ R)) = some X.length := by
    apply findDelim_first
    · rw [List.drop_left]
      exact startsWithL_append _ _
    · exact no_early_delim hX
  rw [remove_md_header, if_pos hsw, hdrop4, hfd]
  have hassoc : ['-', '-', '-', '\n'] ++ (X ++ (delimL ++ R)) =
      ((['-', '-', '-', '\n'] ++ X) ++ delimL) ++ R := by
    simp
  have hlen : ((['-', '-', '-', '\n'] ++ X) ++ delimL).length = 4 + X.length + 5 := by
    simp [delimL]
    omega
  have hdropR := List.drop_left ((['-', '-', '-', '\n'] ++ X) ++ delimL) R
  rw [hlen] at hdropR
  rw [hassoc]
  exact hdropR

/- ## Link-rewriter lemmas -/

/-- Characters that play no syntactic role in a wiki-link or image match. -/
def plainChar (c : Char) : Prop :=
  c ≠ '#' ∧ c ≠ '|' ∧ c ≠ ']' ∧ c ≠ '\n' ∧ c ≠ '!'

theorem scanAlias_shape {a : List Char} (ha : ∀ c ∈ a, plainChar c) (rest : List Char) :
    scanAlias (a ++ (']' :: ']' :: rest)) = some (a, rest) := by
  induction a with
  | nil => simp [scanAlias]
  | cons c a' ih =>
    have hc := ha c (List.mem_cons_self _ _)
    rw [List.cons_append, scanAlias,
      if_neg (fun hp => hc.2.2.1 hp.1), if_neg hc.2.2.2.1,
      ih (fun d hd => ha d (List.mem_cons_of_mem c hd))]
    rfl

theorem scanSub_close {s : List Char} (hs : ∀ c ∈ s, plainChar c) (rest : List Char) :
    scanSub (s ++ (']' :: ']' :: rest)) = some (s, none, rest) := by
  induction s with
  | nil => simp [scanSub]
  | cons c s' ih =>
    have hc := hs c (List.mem_cons_self _ _)
    rw [List.cons_append, scanSub,
      if_neg (fun hp => hc.2.2.1 hp.1), if_neg hc.2.1, if_neg hc.2.2.2.1,
      ih (fun d hd => hs d (List.mem_cons_of_mem c hd))]
    rfl

theorem scanSub_alias {s a : List Char} (hs : ∀ c ∈ s, plainChar c)
    (ha : ∀ c ∈ a, plainChar c) (rest : List Char) :
    scanSub (s ++ ('|' :: (a ++ (']' :: ']' :: rest)))) = some (s, some a, rest) := by
  induction s with
  | nil =>
    rw [List.nil_append, scanSub, if_neg (by simp), if_pos rfl, scanAlias_shape ha]
    rfl
  | cons c s' ih =>
    have hc := hs c (List.mem_cons_self _ _)
    rw [List.cons_append, scanSub,
      if_neg (fun hp => hc.2.2.1 hp.1), if_neg hc.2.1, if_neg hc.2.2.2.1,
      ih (fun d hd => hs d (List.mem_cons_of_mem c hd))]
    rfl

theorem scanTarget_plain {t : List Char} (ht : ∀ c ∈ t, plainChar c) (rest : List Char) :
    scanTarget (t ++ (']' :: ']' :: rest)) = some (t, none, none, rest) := by
  induction t with
  | nil => simp [scanTarget]
  | cons c t' ih =>
    have hc := ht c (List.mem_cons_self _ _)
    rw [List.cons_append, scanTarget,
      if_neg (fun hp => hc.2.2.1 hp.1), if_neg hc.1, if_neg hc.2.1, if_neg hc.2.2.2.1,
      ih (fun d hd => ht d (List.mem_cons_of_mem c hd))]
    rfl

theorem scanTarget_sub {t s : List Char} (ht : ∀ c ∈ t, plainChar c)
    (hs : ∀ c ∈ s, plainChar c) (rest : List Char) :
    scanTarget (t ++ ('#' :: (s ++ (']' :: ']' :: rest)))) = some (t, some s, none, rest) := by
  induction t with
  | nil =>
    rw [List.nil_append, scanTarget, if_neg (by simp), if_pos rfl, scanSub_close hs]
    rfl
  | cons c t' ih =>
    have hc := ht c (List.mem_cons_self _ _)
    rw [List.cons_append, scanTarget,
      if_neg (fun hp => hc.2.2.1 hp.1), if_neg hc.1, if_neg hc.2.1, if_neg hc.2.2.2.1,
      ih (fun d hd => ht d (List.mem_cons_of_mem c hd))]
    rfl

theorem scanTarget_alias {t a : List Char} (ht : ∀ c ∈ t, plainChar c)
    (ha : ∀ c ∈ a, plainChar c) (rest : List Char) :
    scanTarget (t ++ ('|' :: (a ++ (']' :: ']' :: rest)))) = some (t, none, some a, rest) := by
  induction t with
  | nil =>
    rw [List.nil_append, scanTarget, if_neg (by simp), if_neg (by decide), if_pos rfl,
      scanAlias_shape ha]
    rfl
  | cons c t' ih =>
    have hc := ht c (List.mem_cons_self _ _)
    rw [List.cons_append, scanTarget,
      if_neg (fun hp => hc.2.2.1 hp.1), if_neg hc.1, if_neg hc.2.1, if_neg hc.2.2.2.1,
      ih (fun d hd => ht d (List.mem_cons_of_mem c hd))]
    rfl

theorem scanTarget_sub_alias {t s a : List Char} (ht : ∀ c ∈ t, plainChar c)
    (hs : ∀ c ∈ s, plainChar c) (ha : ∀ c ∈ a, plainChar c) (rest : List Char) :
    scanTarget (t ++ ('#' :: (s ++ ('|' :: (a ++ (']' :: ']' :: rest)))))) =
      some (t, some s, some a, rest) := by
  induction t with
  | nil =>
    rw [List.nil_append, scanTarget, if_neg (by simp), if_pos rfl, scanSub_alias hs ha]
    rfl
  | cons c t' ih =>
    have hc := ht c (List.mem_cons_self _ _)
    rw [List.cons_append, scanTarget,
      if_neg (fun hp => hc.2.2.1 hp.1), if_neg hc.1, if_neg hc.2.1, if_neg hc.2.2.2.1,
      ih (fun d hd => ht d (List.mem_cons_of_mem c hd))]
    rfl

theorem linkSubN_nil (tr : List Char → Option (List Char) → Option (List Char) → List Char)
    (n : Nat) : linkSubN tr n [] = [] := by
  cases n <;> rfl

theorem matchLinkAt_eval (body : List Char) :
    matchLinkAt ('[' :: '[' :: body) = scanTarget body := by
  simp [matchLinkAt]

theorem linkSubN_single (tr : List Char → Option (List Char) → Option (List Char) → List Char)
    {body t : List Char} {s a : Option (List Char)}
    (h : scanTarget body = some (t, s, a, [])) (n : Nat) :
    linkSubN tr (n + 1) ('[' :: '[' :: body) = tr t s a := by
  rw [linkSubN, matchLinkAt_eval, h]
  simp [linkSubN_nil]

theorem linkSubN_no_match (tr : List Char → Option (List Char) → Option (List Char) → List Char) :
    ∀ (n : Nat) {cs : List Char}, hasLinkMatch cs = false → linkSubN tr n cs = cs := by
  intro n
  induction n with
  | zero => intro cs _; rfl
  | succ n ih =>
    intro cs h
    cases cs with
    | nil => rfl
    | cons c cs' =>
      rw [hasLinkMatch, Bool.or_eq_false_iff] at h
      cases hm : matchLinkAt (c :: cs') with
      | some p => rw [hm] at h; simp at h
      | none => simp [linkSubN, hm, ih h.2]

theorem imageSubN_no_match : ∀ (n : Nat) {cs : List Char}, hasImageMatch cs = false →
    imageSubN n cs = cs := by
  intro n
  induction n with
  | zero => intro cs _; rfl
  | succ n ih =>
    intro cs h
    cases cs with
    | nil => rfl
    | cons c cs' =>
      rw [hasImageMatch, Bool.or_eq_false_iff] at h
      cases hm : matchImageAt (c :: cs') with
      | some p => rw [hm] at h; simp at h
      | none => simp [imageSubN, hm, ih h.2]

theorem hasImageMatch_false_of_no_bang {cs : List Char} (h : ∀ c ∈ cs, c ≠ '!') :
    hasImageMatch cs = false := by
  induction cs with
  | nil => rfl
  | cons c cs ih =>
    rw [hasImageMatch, matchImageAt, if_neg (fun hp => h c (List.mem_cons_self _ _) hp.1)]
    simp [ih (fun d hd => h d (List.mem_cons_of_mem c hd))]

theorem convert_links_and_images_no_match {ids : List (List Char × List Char)} {cs : List Char}
    (hl : hasLinkMatch cs = false) (hi : hasImageMatch cs = false) :
    convert_links_and_images ids cs = cs := by
  unfold convert_links_and_images
  rw [linkSubN_no_match _ _ hl, imageSubN_no_match _ hi]

theorem convert_links_no_match {cs : List Char} (hl : hasLinkMatch cs = false) :
    convert_links cs = cs := by
  unfold convert_links
  exact linkSubN_no_match _ _ hl

theorem convert_single_link (ids : List (List Char × List Char)) {body t : List Char}
    {s a : Option (List Char)} (h : scanTarget body = some (t, s, a, []))
    (hbang : ∀ c ∈ transform_link ids t s a, c ≠ '!') :
    convert_links_and_images ids ('[' :: '[' :: body) = transform_link ids t s a := by
  unfold convert_links_and_images
  rw [linkSubN_single _ h]
  exact imageSubN_no_match _ (hasImageMatch_false_of_no_bang hbang)

theorem convert_links_single {body t : List Char} {s a : Option (List Char)}
    (h : scanTarget body = some (t, s, a, [])) :
    convert_links ('[' :: '[' :: body) = transform_link_plain t s a := by
  unfold convert_links
  exact linkSubN_single _ h _

/- ## Identifier-index lemmas -/

theorem searchId_step {c : Char} {cs : List Char} (h : matchIdAt (c :: cs) = none) :
    searchId (c :: cs) = searchId cs := by
  rw [searchId, h]

theorem matchIdAt_none {cs : List Char} (h : startsWithL ":ID:".data cs = false) :
    matchIdAt cs = none := by
  rw [matchIdAt, if_neg (by simp [h])]

theorem headNot_space_of_nospace {u : List Char} (hne : u ≠ [])
    (hsp : ∀ c ∈ u, pyIsSpace c = false) (rest : List Char) :
    headNot pyIsSpace (u ++ rest) := by
  cases u with
  | nil => exact absurd rfl hne
  | cons a u' => exact headNot_cons (hsp a (List.mem_cons_self a u'))

theorem matchIdAt_hit {uid R : List Char} (hne : uid ≠ [])
    (hsp : ∀ c ∈ uid, pyIsSpace c = false) :
    matchIdAt (':' :: 'I' :: 'D' :: ':' :: ' ' :: (uid ++ '\n' :: R)) = some uid := by
  have hsp1 : spanL pyIsSpace (' ' :: (uid ++ '\n' :: R)) = ([' '], uid ++ '\n' :: R) :=
    spanL_split pyIsSpace [' '] (by intro c hc; simp at hc; subst hc; decide)
      _ (headNot_space_of_nospace hne hsp _)
  have htok : spanL (fun c => !pyIsSpace c) (uid ++ '\n' :: R) = (uid, '\n' :: R) :=
    spanL_split _ uid (by intro c hc; rw [hsp c hc]; rfl)
      _ (headNot_cons (by decide))
  have hune : uid.isEmpty = false := by
    cases uid with
    | nil => exact absurd rfl hne
    | cons a u' => rfl
  rw [matchIdAt, if_pos (by simp [startsWithL])]
  simp [hsp1, htok, hune]

theorem searchId_roam_header (title tags uid body : List Char) (hne : uid ≠ [])
    (hsp : ∀ c ∈ uid, pyIsSpace c = false) :
    searchId ((generate_org_roam_header title tags uid).1 ++ body) = some uid := by
  have e1 : (":PROPERTIES:\n:ID: ").data =
      [':', 'P', 'R', 'O', 'P', 'E', 'R', 'T', 'I', 'E', 'S', ':', '\n',
       ':', 'I', 'D', ':', ' '] := rfl
  have e2 : ("\n:END:\n#+title: ").data =
      ['\n', ':', 'E', 'N', 'D', ':', '\n', '#', '+', 't', 'i', 't', 'l', 'e', ':', ' '] := rfl
  have e3 : ("\n#+ROAM_TAGS: ").data =
      ['\n', '#', '+', 'R', 'O', 'A', 'M', '_', 'T', 'A', 'G', 'S', ':', ' '] := rfl
  have e4 : ("\n\n").data = ['\n', '\n'] := rfl
  simp only [generate_org_roam_header, e1, e2, e3, e4, List.cons_append, List.nil_append,
    List.append_assoc]
  iterate 13 rw [searchId_step (matchIdAt_none (by simp [startsWithL]))]
  rw [searchId, matchIdAt_hit hne hsp]

theorem build_single_roam (title tags uid body : List Char) (hne : uid ≠ [])
    (hsp : ∀ c ∈ uid, pyIsSpace c = false) :
    build_existing_ids_map [(title, (generate_org_roam_header title tags uid).1 ++ body)] =
      [(title, uid)] := by
  unfold build_existing_ids_map
  simp [searchId_roam_header title tags uid body hne hsp, dictInsert]

theorem dictLookup_insert (m : List (List Char × List Char)) (k v t : List Char) :
    dictLookup (dictInsert m k v) t = if k = t then some v else dictLookup m t := by
  induction m with
  | nil =>
    by_cases hk : k = t <;> simp [dictInsert, dictLookup, hk]
  | cons p m ih =>
    obtain ⟨k', v'⟩ := p
    by_cases hk : k' = k
    · subst hk
      by_cases ht : k' = t <;> simp [dictInsert, dictLookup, ht]
    · by_cases ht : k' = t
      · subst ht
        have hkt : ¬ k = k' := fun he => hk he.symm
        simp [dictInsert, hk, dictLookup, hkt]
      · simp [dictInsert, hk, dictLookup, ht, ih]

/-- The keys of the identifier index, in order. -/
def dictKeys (m : List (List Char × List Char)) : List (List Char) :=
  m.map Prod.fst

theorem mem_dictKeys_insert {m : List (List Char × List Char)} {k v x : List Char}
    (h : x ∈ dictKeys (dictInsert m k v)) : x ∈ dictKeys m ∨ x = k := by
  induction m with
  | nil =>
    right
    simpa [dictInsert, dictKeys] using h
  | cons p m ih =>
    obtain ⟨k', v'⟩ := p
    by_cases hk : k' = k
    · subst hk
      rw [show dictInsert ((k', v') :: m) k' v = (k', v) :: m from by simp [dictInsert]] at h
      left
      simpa [dictKeys] using h
    · rw [show dictInsert ((k', v') :: m) k v = (k', v') :: dictInsert m k v from by
        simp [dictInsert, hk]] at h
      unfold dictKeys at h
      rw [List.map_cons, List.mem_cons] at h
      rcases h with h | h
    -- the head key, a key of the tail insert, or the new key
      · left
        unfold dictKeys
        rw [List.map_cons, List.mem_cons]
        exact Or.inl h
      · rcases ih h with h2 | h2
        · left
          unfold dictKeys
          rw [List.map_cons, List.mem_cons]
          exact Or.inr h2
        · right
          exact h2

theorem keysNodup_insert {m : List (List Char × List Char)}
    (h : (dictKeys m).Nodup) (k v : List Char) : (dictKeys (dictInsert m k v)).Nodup := by
  induction m with
  | nil => simp [dictInsert, dictKeys]
  | cons p m ih =>
    obtain ⟨k', v'⟩ := p
    unfold dictKeys at h
    rw [List.map_cons, List.nodup_cons] at h
    by_cases hk : k' = k
    · subst hk
      rw [show dictInsert ((k', v') :: m) k' v = (k', v) :: m from by simp [dictInsert]]
      unfold dictKeys
      rw [List.map_cons, List.nodup_cons]
      exact h
    · rw [show dictInsert ((k', v') :: m) k v = (k', v') :: dictInsert m k v from by
        simp [dictInsert, hk]]
      unfold dictKeys
      rw [List.map_cons, List.nodup_cons]
      constructor
      · intro hmem
        rcases mem_dictKeys_insert hmem with h2 | h2
        · exact h.1 h2
        · exact hk h2
      · exact ih h.2

theorem lastAssign_gen (t : List Char) :
    ∀ (convs : List (List Char × List Char)) (a : Option (List Char)),
      convs.foldl (fun acc p => if p.1 = t then some p.2 else acc) a =
        match lastAssign convs t with
        | some u => some u
        | none => a := by
  intro convs
  induction convs with
  | nil => intro a; rfl
  | cons q convs ih =>
    intro a
    have hl : lastAssign (q :: convs) t =
        match lastAssign convs t with
        | some u => some u
        | none => if q.1 = t then some q.2 else none := by
      show (q :: convs).foldl _ none = _
      rw [List.foldl_cons, ih]
    rw [List.foldl_cons, ih, hl]
    cases lastAssign convs t with
    | some u => rfl
    | none => by_cases hq : q.1 = t <;> simp [hq]

theorem lastAssign_cons (q : List Char × List Char) (convs : List (List Char × List Char))
    (t : List Char) :
    lastAssign (q :: convs) t =
      match lastAssign convs t with
      | some u => some u
      | none => if q.1 = t then some q.2 else none := by
  show (q :: convs).foldl _ none = _
  rw [List.foldl_cons]
  exact lastAssign_gen t convs _

theorem dictLookup_runConvert (ids convs : List (List Char × List Char)) (t : List Char) :
    dictLookup (runConvert ids convs) t =
      match lastAssign convs t with
      | some u => some u
      | none => dictLookup ids t := by
  induction convs generalizing ids with
  | nil => rfl
  | cons q convs ih =>
    rw [runConvert, List.foldl_cons]
    have h1 : (List.foldl (fun m p => dictInsert m p.1 p.2) (dictInsert ids q.1 q.2) convs) =
        runConvert (dictInsert ids q.1 q.2) convs := rfl
    rw [h1, ih, lastAssign_cons]
    cases lastAssign convs t with
    | some u => rfl
    | none =>
      rw [dictLookup_insert]
      by_cases hq : q.1 = t <;> simp [hq]

theorem keysNodup_runConvert {ids : List (List Char × List Char)}
    (h : (dictKeys ids).Nodup) (convs : List (List Char × List Char)) :
    (dictKeys (runConvert ids convs)).Nodup := by
  induction convs generalizing ids with
  | nil => exact h
  | cons q convs ih =>
    rw [runConvert, List.foldl_cons]
    exact ih (keysNodup_insert h q.1 q.2)

/- ## Multiple tags blocks -/

/-- No tags-block match starts within the first `sep.length` positions of
`sep ++ X`. -/
def noStartInside : List Char → List Char → Bool
  | [], _ => true
  | c :: s, X => !(matchTagsBlockAt (c :: (s ++ X))).isSome && noStartInside s X

theorem tagsSubN_through : ∀ (sep : List Char) (n : Nat) (X : List Char),
    noStartInside sep X = true →
    tagsSubN n (sep ++ X) =
      (sep ++ (tagsSubN (n - sep.length) X).1, (tagsSubN (n - sep.length) X).2) := by
  intro sep
  induction sep with
  | nil => intro n X _; simp
  | cons c s ih =>
    intro n X h
    rw [noStartInside, Bool.and_eq_true] at h
    cases n with
    | zero => simp [tagsSubN]
    | succ n =>
      rw [List.cons_append, tagsSubN]
      have hnone : matchTagsBlockAt (c :: (s ++ X)) = none := by
        rcases hmm : matchTagsBlockAt (c :: (s ++ X)) with _ | p
        · rfl
        · rw [hmm] at h; simp at h
      rw [hnone, ih n X h.2]
      simp [List.length_cons, Nat.succ_sub_succ]

theorem extract_two_blocks {ws1 ws2 : List (List Char)} {sep : List Char}
    (h1 : ws1 ≠ []) (hw1 : ∀ w ∈ ws1, wordStr w)
    (h2 : ws2 ≠ []) (hw2 : ∀ w ∈ ws2, wordStr w)
    (hend : blockEnd (sep ++ blockText ws2))
    (hno : noStartInside sep (blockText ws2) = true) :
    tagsSubN ((blockText ws1 ++ (sep ++ blockText ws2)).length + 1)
        (blockText ws1 ++ (sep ++ blockText ws2)) = (sep, some (blockText ws2)) := by
  rw [tagsSubN_block _ h1 hw1 hend]
  rw [tagsSubN_through sep _ _ hno]
  have hb2 : ∃ m', (blockText ws1 ++ (sep ++ blockText ws2)).length - sep.length = m' + 1 := by
    refine ⟨(blockText ws1 ++ (sep ++ blockText ws2)).length - sep.length - 1, ?_⟩
    have : 1 ≤ (blockText ws1).length := by simp [blockText]
    simp [List.length_append]
    omega
  obtain ⟨m', hm'⟩ := hb2
  rw [hm']
  have hb2eq : blockText ws2 = blockText ws2 ++ [] := by simp
  rw [hb2eq, tagsSubN_block m' h2 hw2 blockEnd_nil, tagsSubN_nil]
  simp

/- ## Final helper lemmas -/

theorem remove_md_header_no_match {cs : List Char} (h : headerMatches cs = false) :
    remove_md_header cs = cs := by
  unfold remove_md_header
  by_cases hs : startsWithL "---\n".data cs = true
  · rw [if_pos hs]
    rw [headerMatches, hs] at h
    simp only [Bool.true_and] at h
    cases hfd : findDelim (cs.drop 4) with
    | some o => rw [hfd] at h; simp at h
    | none => rfl
  · rw [if_neg hs]

theorem remove_md_header_no_prefix {cs : List Char}
    (h : startsWithL "---\n".data cs = false) : remove_md_header cs = cs := by
  unfold remove_md_header
  rw [if_neg (by simp [h])]

theorem truthy_some {s : List Char} (h : s ≠ []) : truthy (some s) = true := by
  cases s with
  | nil => exact absurd rfl h
  | cons c s' => rfl

theorem truthy_none : truthy none = false := rfl

/- ## Claim theorems -/

/-- Claim C1, counterexample: under the inline-directive convention the
generated header carries the identifier on a `#+id:` line, which the
Identifier Index Builder's `:ID:\s+(\S+)` search never matches, so a
subsequent run records nothing for the note — the identifier is not
extractable, contradicting the claim for that convention. -/
theorem C1_counterexample :
    searchId (generate_org_roam_header_org "Note".data [] "3f2a-uuid".data ++
      "body\n".data) = none ∧
    build_existing_ids_map
      [("Note".data,
        generate_org_roam_header_org "Note".data [] "3f2a-uuid".data ++ "body\n".data)] = [] := by
  constructor <;> decide

/-- Claim C1, amended: under the property-drawer convention (the one the
program with the Identifier Index Builder actually emits), scanning the
emitted file records the note's title mapped to exactly the generated
identifier, for every title, tag annotation, rendered body, and nonempty
whitespace-free identifier.  The inline-directive convention's `#+id:`
line is not matched by the Builder. -/
theorem C1_drawer_id_extractable (title tags uid body : List Char) (hne : uid ≠ [])
    (hsp : ∀ c ∈ uid, pyIsSpace c = false) :
    build_existing_ids_map [(title, (generate_org_roam_header title tags uid).1 ++ body)] =
      [(title, uid)] :=
  build_single_roam title tags uid body hne hsp

/-- Witness for the amended claim C1 at a concrete note. -/
theorem C1_drawer_id_extractable_witness :
    ("3f2a-uuid".data ≠ ([] : List Char)) ∧
    (∀ c ∈ "3f2a-uuid".data, pyIsSpace c = false) ∧
    build_existing_ids_map
      [("Note".data,
        (generate_org_roam_header "Note".data [] "3f2a-uuid".data).1 ++ "body\n".data)] =
      [("Note".data, "3f2a-uuid".data)] :=
  ⟨by decide, by decide,
    C1_drawer_id_extractable "Note".data [] "3f2a-uuid".data "body\n".data
      (by decide) (by decide)⟩

/-- Claim C2, counterexample: `convert_file` assigns
`existing_ids[title] = unique_id` unconditionally, so converting a later
file whose title is already mapped (here from the initial scan)
overwrites the entry — first-writer-wins fails. -/
theorem C2_counterexample :
    dictLookup (runConvert [("A".data, "u1".data)] [("A".data, "u2".data)]) "A".data ≠
      some "u1".data := by
  decide

/-- Claim C2, amended: within a run the Identifier Index still maps every
title to at most one identifier (its keys stay duplicate-free), but the
policy is last-writer-wins: after any sequence of conversions a title
resolves to the identifier of the last conversion bearing it, falling
back to the initial scan's entry. -/
theorem C2_last_writer_wins (ids convs : List (List Char × List Char)) (t : List Char)
    (h : (dictKeys ids).Nodup) :
    (dictKeys (runConvert ids convs)).Nodup ∧
    dictLookup (runConvert ids convs) t =
      (match lastAssign convs t with
       | some u => some u
       | none => dictLookup ids t) :=
  ⟨keysNodup_runConvert h convs, dictLookup_runConvert ids convs t⟩

/-- Witness for the amended claim C2: a scanned entry for `A` is
overwritten by a later conversion of a file with the same stem. -/
theorem C2_last_writer_wins_witness :
    (dictKeys [("A".data, "u1".data)]).Nodup ∧
    ((dictKeys (runConvert [("A".data, "u1".data)] [("A".data, "u2".data)])).Nodup ∧
      dictLookup (runConvert [("A".data, "u1".data)] [("A".data, "u2".data)]) "A".data =
        (match lastAssign [("A".data, "u2".data)] "A".data with
         | some u => some u
         | none => dictLookup [("A".data, "u1".data)] "A".data)) :=
  ⟨by decide, C2_last_writer_wins _ _ _ (by decide)⟩

/-- Claim C3, counterexample: a tags block with a multi-word item does
not pass through unchanged — the Tag Extractor partially consumes it. -/
theorem C3_counterexample :
    extract_and_convert_tags "tags:\n- multi word\n".data ≠
      ("tags:\n- multi word\n".data, []) := by
  decide

/-- Claim C3, amended: a tags block whose first list item is quoted or
uses an alternate marker is not recognized and passes through unchanged
with no tags; but a block whose item carries extra words after a valid
`- word` prefix is partially recognized — the leading word is extracted
as a tag and the matched prefix removed, leaving the rest in the body. -/
theorem C3_malformed_blocks :
    (∀ w1 w2 : List Char, wordStr w1 → wordStr w2 →
      extract_and_convert_tags
          ('t' :: 'a' :: 'g' :: 's' :: ':' :: '\n' :: '-' :: ' ' ::
            (w1 ++ ' ' :: (w2 ++ ['\n']))) =
        (w2 ++ ['\n'], ':' :: (w1 ++ [':']))) ∧
    extract_and_convert_tags "tags:\n- \"a\"\n- b\n".data =
      ("tags:\n- \"a\"\n- b\n".data, []) ∧
    extract_and_convert_tags "tags:\n* a\n".data = ("tags:\n* a\n".data, []) :=
  ⟨fun _ _ h1 h2 => extract_multiword h1 h2, by decide, by decide⟩

/-- Witness for the amended claim C3 at the spec's multi-word shape. -/
theorem C3_malformed_blocks_witness :
    wordStr "multi".data ∧ wordStr "word".data ∧
    extract_and_convert_tags "tags:\n- multi word\n".data =
      ("word\n".data, ":multi:".data) := by
  refine ⟨⟨by decide, by decide⟩, ⟨by decide, by decide⟩, ?_⟩
  exact C3_malformed_blocks.1 "multi".data "word".data
    ⟨by decide, by decide⟩ ⟨by decide, by decide⟩

/-- Claim C4, counterexample: the Tag Extractor is not idempotent —
removing a matched block can splice the surrounding text into a fresh
block which only a second application removes. -/
theorem C4_counterexample :
    (extract_and_convert_tags (extract_and_convert_tags "tatags: - x gs: - y".data).1).1 ≠
      (extract_and_convert_tags "tatags: - x gs: - y".data).1 := by
  decide

/-- Claim C4, amended: a second application of each component is a no-op
whenever the first application's output retains no occurrence of the
respective pattern (no tags-block match, no leading front-matter match,
no wiki-link and no image match); in general, removal can create a fresh
match, so unconditional idempotence fails. -/
theorem C4_conditional_idempotence (ids : List (List Char × List Char)) (s : List Char) :
    (hasTagsMatch (extract_and_convert_tags s).1 = false →
      extract_and_convert_tags (extract_and_convert_tags s).1 =
        ((extract_and_convert_tags s).1, [])) ∧
    (headerMatches (remove_md_header s) = false →
      remove_md_header (remove_md_header s) = remove_md_header s) ∧
    (hasLinkMatch (convert_links_and_images ids s) = false →
      hasImageMatch (convert_links_and_images ids s) = false →
      convert_links_and_images ids (convert_links_and_images ids s) =
        convert_links_and_images ids s) ∧
    (hasLinkMatch (convert_links s) = false →
      convert_links (convert_links s) = convert_links s) :=
  ⟨fun h => extract_no_match h, fun h => remove_md_header_no_match h,
    fun hl hi => convert_links_and_images_no_match hl hi,
    fun hl => convert_links_no_match hl⟩

/-- Witness for the amended claim C4 on a note whose transformed output
retains no matchable syntax. -/
theorem C4_conditional_idempotence_witness :
    (hasTagsMatch (extract_and_convert_tags "---\nh\n---\ntags:\n- a\nbody\n".data).1 = false ∧
      extract_and_convert_tags
          (extract_and_convert_tags "---\nh\n---\ntags:\n- a\nbody\n".data).1 =
        ((extract_and_convert_tags "---\nh\n---\ntags:\n- a\nbody\n".data).1, [])) ∧
    (headerMatches (remove_md_header "---\nh\n---\ntags:\n- a\nbody\n".data) = false ∧
      remove_md_header (remove_md_header "---\nh\n---\ntags:\n- a\nbody\n".data) =
        remove_md_header "---\nh\n---\ntags:\n- a\nbody\n".data) ∧
    (hasLinkMatch (convert_links_and_images [("A".data, "u".data)]
        "---\nh\n---\ntags:\n- a\nbody\n".data) = false ∧
      hasImageMatch (convert_links_and_images [("A".data, "u".data)]
        "---\nh\n---\ntags:\n- a\nbody\n".data) = false ∧
      convert_links_and_images [("A".data, "u".data)]
          (convert_links_and_images [("A".data, "u".data)]
            "---\nh\n---\ntags:\n- a\nbody\n".data) =
        convert_links_and_images [("A".data, "u".data)]
          "---\nh\n---\ntags:\n- a\nbody\n".data) ∧
    (hasLinkMatch (convert_links "---\nh\n---\ntags:\n- a\nbody\n".data) = false ∧
      convert_links (convert_links "---\nh\n---\ntags:\n- a\nbody\n".data) =
        convert_links "---\nh\n---\ntags:\n- a\nbody\n".data) :=
  ⟨⟨by decide,
      (C4_conditional_idempotence [("A".data, "u".data)]
        "---\nh\n---\ntags:\n- a\nbody\n".data).1 (by decide)⟩,
    ⟨by decide,
      (C4_conditional_idempotence [("A".data, "u".data)]
        "---\nh\n---\ntags:\n- a\nbody\n".data).2.1 (by decide)⟩,
    ⟨by decide, by decide,
      (C4_conditional_idempotence [("A".data, "u".data)]
        "---\nh\n---\ntags:\n- a\nbody\n".data).2.2.1 (by decide) (by decide)⟩,
    ⟨by decide,
      (C4_conditional_idempotence [("A".data, "u".data)]
        "---\nh\n---\ntags:\n- a\nbody\n".data).2.2.2 (by decide)⟩⟩

/-- Claim C5: the Header Stripper removes exactly a well-formed
front-matter prefix `---\nX\n---\n` (when `X` has no `---` line, stated
as: the padded `X` contains no `\n---\n`), leaves texts that do not
begin with the opening delimiter line unchanged, and never touches a
second delimited region later in the body. -/
theorem C5_header_stripper :
    (∀ X R : List Char, hasSubstr delimL ('\n' :: (X ++ ['\n'])) = false →
      remove_md_header (['-', '-', '-', '\n'] ++ (X ++ (delimL ++ R))) = R) ∧
    (∀ cs : List Char, startsWithL "---\n".data cs = false → remove_md_header cs = cs) ∧
    remove_md_header "---\nA\n---\n---\nB\n---\nZ".data = "---\nB\n---\nZ".data :=
  ⟨fun _ _ hX => remove_md_header_front hX,
    fun _ h => remove_md_header_no_prefix h, by decide⟩

/-- Witness for claim C5 on a concrete header followed by a body. -/
theorem C5_header_stripper_witness :
    hasSubstr delimL ('\n' :: ("A".data ++ ['\n'])) = false ∧
    remove_md_header (['-', '-', '-', '\n'] ++ ("A".data ++ (delimL ++ "rest".data))) =
      "rest".data :=
  ⟨by decide, C5_header_stripper.1 "A".data "rest".data (by decide)⟩

/-- Claim C6: with the target title present in the Identifier Index, the
identifier-resolving rewrite addresses the link by the stored identifier,
appends the subheading after `::` when present, and displays the alias
when given, else the raw target; in particular `[[t]]` becomes
`[[id:u][t]]`. -/
theorem C6_resolved_links (ids : List (List Char × List Char)) (t s a u : List Char)
    (hlu : dictLookup ids t = some u)
    (ht : ∀ c ∈ t, plainChar c) (hs : ∀ c ∈ s, plainChar c) (ha : ∀ c ∈ a, plainChar c)
    (hu : '!' ∉ u) (hsne : s ≠ []) (hane : a ≠ []) :
    convert_links_and_images ids ('[' :: '[' :: (t ++ [']', ']'])) =
      '[' :: '[' :: ("id:".data ++ (u ++ ']' :: '[' :: (t ++ [']', ']']))) ∧
    convert_links_and_images ids ('[' :: '[' :: (t ++ '#' :: (s ++ [']', ']']))) =
      '[' :: '[' :: ("id:".data ++ (u ++ ':' :: ':' :: (s ++ ']' :: '[' :: (t ++ [']', ']'])))) ∧
    convert_links_and_images ids ('[' :: '[' :: (t ++ '|' :: (a ++ [']', ']']))) =
      '[' :: '[' :: ("id:".data ++ (u ++ ']' :: '[' :: (a ++ [']', ']']))) ∧
    convert_links_and_images ids ('[' :: '[' :: (t ++ '#' :: (s ++ '|' :: (a ++ [']', ']'])))) =
      '[' :: '[' :: ("id:".data ++ (u ++ ':' :: ':' :: (s ++ ']' :: '[' :: (a ++ [']', ']'])))) := by
  have eid : "id:".data = ['i', 'd', ':'] := rfl
  have htr1 : transform_link ids t none none =
      '[' :: '[' :: ("id:".data ++ (u ++ ']' :: '[' :: (t ++ [']', ']']))) := by
    simp [transform_link, hlu, truthy_none]
  have htr2 : transform_link ids t (some s) none =
      '[' :: '[' :: ("id:".data ++ (u ++ ':' :: ':' :: (s ++ ']' :: '[' :: (t ++ [']', ']'])))) := by
    simp [transform_link, hlu, truthy_some hsne, truthy_none]
  have htr3 : transform_link ids t none (some a) =
      '[' :: '[' :: ("id:".data ++ (u ++ ']' :: '[' :: (a ++ [']', ']']))) := by
    simp [transform_link, hlu, truthy_some hane, truthy_none]
  have htr4 : transform_link ids t (some s) (some a) =
      '[' :: '[' :: ("id:".data ++ (u ++ ':' :: ':' :: (s ++ ']' :: '[' :: (a ++ [']', ']'])))) := by
    simp [transform_link, hlu, truthy_some hsne, truthy_some hane]
  have hnb1 : ∀ c ∈ transform_link ids t none none, c ≠ '!' := by
    rw [htr1]
    intro c hc he
    subst he
    simp [eid] at hc
    rcases hc with hc | hc
    · exact hu hc
    · exact (ht '!' hc).2.2.2.2 rfl
  have hnb2 : ∀ c ∈ transform_link ids t (some s) none, c ≠ '!' := by
    rw [htr2]
    intro c hc he
    subst he
    simp [eid] at hc
    rcases hc with hc | hc | hc
    · exact hu hc
    · exact (hs '!' hc).2.2.2.2 rfl
    · exact (ht '!' hc).2.2.2.2 rfl
  have hnb3 : ∀ c ∈ transform_link ids t none (some a), c ≠ '!' := by
    rw [htr3]
    intro c hc he
    subst he
    simp [eid] at hc
    rcases hc with hc | hc
    · exact hu hc
    · exact (ha '!' hc).2.2.2.2 rfl
  have hnb4 : ∀ c ∈ transform_link ids t (some s) (some a), c ≠ '!' := by
    rw [htr4]
    intro c hc he
    subst he
    simp [eid] at hc
    rcases hc with hc | hc | hc
    · exact hu hc
    · exact (hs '!' hc).2.2.2.2 rfl
    · exact (ha '!' hc).2.2.2.2 rfl
  exact ⟨(convert_single_link ids (scanTarget_plain ht []) hnb1).trans htr1,
    (convert_single_link ids (scanTarget_sub ht hs []) hnb2).trans htr2,
    (convert_single_link ids (scanTarget_alias ht ha []) hnb3).trans htr3,
    (convert_single_link ids (scanTarget_sub_alias ht hs ha []) hnb4).trans htr4⟩

instance (c : Char) : Decidable (plainChar c) := by
  unfold plainChar
  infer_instance

instance (w : List Char) : Decidable (wordStr w) := by
  unfold wordStr
  infer_instance

instance (Z : List Char) : Decidable (blockEnd Z) :=
  match Z with
  | [] => isTrue trivial
  | c :: _ => inferInstanceAs (Decidable (pyIsSpace c = false ∧ c ≠ '-'))

/-- Witness for claim C6 at `[[Note]]`, `[[Note#Sec]]`, `[[Note|Al]]`,
`[[Note#Sec|Al]]` with `Note ↦ U` in the index. -/
theorem C6_resolved_links_witness :
    dictLookup [("Note".data, "U".data)] "Note".data = some "U".data ∧
    (convert_links_and_images [("Note".data, "U".data)] "[[Note]]".data =
        "[[id:U][Note]]".data ∧
      convert_links_and_images [("Note".data, "U".data)] "[[Note#Sec]]".data =
        "[[id:U::Sec][Note]]".data ∧
      convert_links_and_images [("Note".data, "U".data)] "[[Note|Al]]".data =
        "[[id:U][Al]]".data ∧
      convert_links_and_images [("Note".data, "U".data)] "[[Note#Sec|Al]]".data =
        "[[id:U::Sec][Al]]".data) :=
  ⟨by decide,
    C6_resolved_links [("Note".data, "U".data)] "Note".data "Sec".data "Al".data "U".data
      (by decide) (by decide) (by decide) (by decide) (by decide) (by decide) (by decide)⟩

/-- Claim C7: for a wiki-link with an alias whose target is absent from
the Identifier Index, the plain rewrite addresses the link by the literal
title with the alias as display text, while the identifier-resolving
rewrite reproduces the original occurrence unchanged. -/
theorem C7_unresolved_alias (ids : List (List Char × List Char)) (t a : List Char)
    (hlu : dictLookup ids t = none)
    (ht : ∀ c ∈ t, plainChar c) (ha : ∀ c ∈ a, plainChar c) (hane : a ≠ []) :
    convert_links ('[' :: '[' :: (t ++ '|' :: (a ++ [']', ']']))) =
      '[' :: '[' :: (t ++ ']' :: '[' :: (a ++ [']', ']'])) ∧
    convert_links_and_images ids ('[' :: '[' :: (t ++ '|' :: (a ++ [']', ']']))) =
      '[' :: '[' :: (t ++ '|' :: (a ++ [']', ']'])) := by
  have hscan := scanTarget_alias ht ha []
  constructor
  · rw [convert_links_single hscan]
    simp [transform_link_plain, truthy_some hane, truthy_none]
  · have hg0 : transform_link ids t none (some a) =
        '[' :: '[' :: (t ++ '|' :: (a ++ [']', ']'])) := by
      simp [transform_link, hlu, linkGroup0]
    have hnb : ∀ c ∈ transform_link ids t none (some a), c ≠ '!' := by
      rw [hg0]
      intro c hc he
      subst he
      simp at hc
      rcases hc with hc | hc
      · exact (ht '!' hc).2.2.2.2 rfl
      · exact (ha '!' hc).2.2.2.2 rfl
    exact (convert_single_link ids hscan hnb).trans hg0

/-- Witness for claim C7 at `[[Note|Alias]]` with an empty index. -/
theorem C7_unresolved_alias_witness :
    dictLookup [] "Note".data = none ∧
    (convert_links "[[Note|Alias]]".data = "[[Note][Alias]]".data ∧
      convert_links_and_images [] "[[Note|Alias]]".data = "[[Note|Alias]]".data) :=
  ⟨by decide,
    C7_unresolved_alias [] "Note".data "Alias".data (by decide) (by decide) (by decide)
      (by decide)⟩

/-- Claim C8: on a recognized (line-shaped) tags block the Tag Extractor
collects the bare word of each list item in source order, keeping
duplicates, removes the matched block entirely, and renders the
annotation in the respective convention. -/
theorem C8_tag_extraction (ws : List (List Char)) (hne : ws ≠ [])
    (hws : ∀ w ∈ ws, wordStr w) :
    extract_tag_list (blockText ws) = ws ∧
    extract_and_convert_tags (blockText ws) = ([], renderRoamTags ws) ∧
    extract_and_convert_tags_org (blockText ws) = ([], renderOrgTags ws) :=
  ⟨extract_tag_list_block hne hws, extract_and_convert_tags_block hne hws,
    extract_and_convert_tags_org_block hne hws⟩

/-- Witness for claim C8 at the spec's example `tags:\n- a\n- b\n`
(duplicates kept is visible in the C10 two-block witness's `:b:`). -/
theorem C8_tag_extraction_witness :
    (["a".data, "b".data] : List (List Char)) ≠ [] ∧
    (∀ w ∈ (["a".data, "b".data] : List (List Char)), wordStr w) ∧
    (extract_tag_list "tags:\n- a\n- b\n".data = ["a".data, "b".data] ∧
      extract_and_convert_tags "tags:\n- a\n- b\n".data = ([], ":a:b:".data) ∧
      extract_and_convert_tags_org "tags:\n- a\n- b\n".data =
        ([], "#+FILETAGS: :a: :b:".data)) :=
  ⟨by decide, by decide, C8_tag_extraction ["a".data, "b".data] (by decide) (by decide)⟩

/-- Claim C9: a text with no recognizable tags block passes through the
Tag Extractor unchanged with an empty tag annotation, and more generally
each transform is total and leaves non-matching input unmodified (the
embedding's functions are total by construction, so no input raises an
error). -/
theorem C9_no_match_passthrough :
    (∀ cs : List Char, hasTagsMatch cs = false → extract_and_convert_tags cs = (cs, [])) ∧
    (∀ cs : List Char, hasTagsMatch cs = false → extract_and_convert_tags_org cs = (cs, [])) ∧
    (∀ cs : List Char, headerMatches cs = false → remove_md_header cs = cs) ∧
    (∀ (ids : List (List Char × List Char)) (cs : List Char),
      hasLinkMatch cs = false → hasImageMatch cs = false →
      convert_links_and_images ids cs = cs) ∧
    (∀ cs : List Char, hasLinkMatch cs = false → convert_links cs = cs) :=
  ⟨fun _ h => extract_no_match h, fun _ h => extract_org_no_match h,
    fun _ h => remove_md_header_no_match h,
    fun _ _ hl hi => convert_links_and_images_no_match hl hi,
    fun _ hl => convert_links_no_match hl⟩

/-- Witness for claim C9 on a malformed note (stray `tags:` line, broken
link and image syntax, dangling front-matter opener). -/
theorem C9_no_match_passthrough_witness :
    hasTagsMatch "---\ntags: -x\n[[broken\n![img](..\n".data = false ∧
    headerMatches "---\ntags: -x\n[[broken\n![img](..\n".data = false ∧
    hasLinkMatch "---\ntags: -x\n[[broken\n![img](..\n".data = false ∧
    hasImageMatch "---\ntags: -x\n[[broken\n![img](..\n".data = false ∧
    (extract_and_convert_tags "---\ntags: -x\n[[broken\n![img](..\n".data =
        ("---\ntags: -x\n[[broken\n![img](..\n".data, []) ∧
      remove_md_header "---\ntags: -x\n[[broken\n![img](..\n".data =
        "---\ntags: -x\n[[broken\n![img](..\n".data ∧
      convert_links_and_images [] "---\ntags: -x\n[[broken\n![img](..\n".data =
        "---\ntags: -x\n[[broken\n![img](..\n".data) :=
  ⟨by decide, by decide, by decide, by decide,
    C9_no_match_passthrough.1 _ (by decide),
    C9_no_match_passthrough.2.2.1 _ (by decide),
    C9_no_match_passthrough.2.2.2.1 [] _ (by decide) (by decide)⟩

/-- Claim C10: with two recognized tags blocks in one text (separated by
text containing no block start), a single call removes both blocks and
the reported Tag Set is that of the last block — the first block's tags
are discarded. -/
theorem C10_last_block_wins (ws1 ws2 : List (List Char)) (sep : List Char)
    (h1 : ws1 ≠ []) (hw1 : ∀ w ∈ ws1, wordStr w)
    (h2 : ws2 ≠ []) (hw2 : ∀ w ∈ ws2, wordStr w)
    (hend : blockEnd (sep ++ blockText ws2))
    (hno : noStartInside sep (blockText ws2) = true) :
    extract_and_convert_tags (blockText ws1 ++ (sep ++ blockText ws2)) =
      (sep, renderRoamTags ws2) ∧
    extract_tag_list (blockText ws1 ++ (sep ++ blockText ws2)) = ws2 := by
  have h := extract_two_blocks h1 hw1 h2 hw2 hend hno
  constructor
  · unfold extract_and_convert_tags
    rw [h]
    simp [findallTags_block hw2]
  · unfold extract_tag_list
    rw [h]
    simp [findallTags_block hw2]

/-- Witness for claim C10: `tags:\n- a\nx\ntags:\n- b\n- b\n` loses the
first block's `a`, removes both blocks, and reports `:b:b:` (duplicates
kept). -/
theorem C10_last_block_wins_witness :
    blockEnd ("x\n".data ++ blockText ["b".data, "b".data]) ∧
    noStartInside "x\n".data (blockText ["b".data, "b".data]) = true ∧
    (extract_and_convert_tags "tags:\n- a\nx\ntags:\n- b\n- b\n".data =
        ("x\n".data, ":b:b:".data) ∧
      extract_tag_list "tags:\n- a\nx\ntags:\n- b\n- b\n".data = ["b".data, "b".data]) :=
  ⟨by decide, by decide,
    C10_last_block_wins ["a".data] ["b".data, "b".data] "x\n".data
      (by decide) (by decide) (by decide) (by decide) (by decide) (by decide)⟩
